import Mathlib

/-!
Verification of the threat/opportunity scoring layer (`fight_heur.py`) and the
inventory guard/identity layer (`item.py`) of the autoascend heuristic agent.

The score field is a numpy float array; we embed it as a total function
`ℤ → ℤ → Option ℚ` together with its shape, where `none` models the IEEE
`NaN` ("never move here") and `some q` a finite score.  All arithmetic the
source performs on the field is integer-valued, so rationals lose nothing.
-/

namespace FightHeur

/-- A cell score: `none` is numpy's `NaN`, `some q` a finite float. -/
abbrev Score := Option ℚ

/-- `NaN`-correct addition: `nan + v = nan` (numpy `+=` on a `nan` cell). -/
def scoreAdd (s : Score) (v : ℚ) : Score := s.map (· + v)

/-- `NaN`-correct binary max as Python's `max(cell, v)` computes it: with the
cell as first argument, `v > nan` is `False`, so `max(nan, v) = nan`. -/
def scoreMax (s : Score) (v : ℚ) : Score := s.map (fun c => max c v)

/-- `NaN`-correct subtraction for the final re-basing `priority -= priority[agent]`:
if either operand is `NaN` the result is `NaN`. -/
def scoreSub (a b : Score) : Score :=
  match a, b with
  | some a, some b => some (a - b)
  | _, _ => none

/-- The `operation` string argument of `_draw_around` / `_draw_ranged`; any
other string hits `assert 0, operation`, so the two legal values form an
enumeration. -/
inductive Op where
  | add
  | max
deriving DecidableEq, Repr

/-- Apply one drawing operation to a cell, as the
`priority[y1, x1] += value` / `priority[y1, x1] = max(priority[y1, x1], value)`
branches do. -/
def applyOp : Op → ℚ → Score → Score
  | .add, v, s => scoreAdd s v
  | .max, v, s => scoreMax s v

/-- The numpy array `priority`: its shape plus a total valuation.  Only cells
with `0 ≤ y < shape0 ∧ 0 ≤ x < shape1` exist in the source array; the source
always bounds-checks before writing. -/
structure ScoreField where
  shape0 : ℕ
  shape1 : ℕ
  val : ℤ → ℤ → Score

/-- The bounds test `0 <= y1 < priority.shape[0] and 0 <= x1 < priority.shape[1]`. -/
def ScoreField.inB (p : ScoreField) (y x : ℤ) : Prop :=
  0 ≤ y ∧ y < p.shape0 ∧ 0 ≤ x ∧ x < p.shape1

instance (p : ScoreField) (y x : ℤ) : Decidable (p.inB y x) := by
  unfold ScoreField.inB; infer_instance

/-- Single-cell assignment `priority[y, x] = s`. -/
def ScoreField.set (p : ScoreField) (y x : ℤ) (s : Score) : ScoreField :=
  { p with val := fun y1 x1 => if y1 = y ∧ x1 = x then s else p.val y1 x1 }

/-- Python's `range(a, b)` over integers. -/
def intRange (a b : ℤ) : List ℤ :=
  (List.range (b - a).toNat).map (fun (i : ℕ) => a + (i : ℤ))

/-- Loop body of `_draw_around` for one `(y1, x1)`: skip unless the Chebyshev
distance from `(y, x)` equals `radius`, then bounds-check and apply the op. -/
def drawCellStep (y x : ℤ) (value : ℚ) (radius : ℕ) (op : Op)
    (p : ScoreField) (y1 x1 : ℤ) : ScoreField :=
  if max (y1 - y).natAbs (x1 - x).natAbs ≠ radius then p
  else if p.inB y1 x1 then
    p.set y1 x1 (applyOp op value (p.val y1 x1))
  else p

/-- `_draw_around(priority, y, x, value, radius, operation)`: the two nested
`for` loops over the box `[y-radius, y+radius] × [x-radius, x+radius]`. -/
def draw_around (p : ScoreField) (y x : ℤ) (value : ℚ) (radius : ℕ) (op : Op) :
    ScoreField :=
  (intRange (y - radius) (y + radius + 1)).foldl
    (fun p1 y1 =>
      (intRange (x - radius) (x + radius + 1)).foldl
        (fun p2 x1 => drawCellStep y x value radius op p2 y1 x1) p1)
    p

lemma mem_intRange {a b z : ℤ} : z ∈ intRange a b ↔ a ≤ z ∧ z < b := by
  constructor
  · intro h
    rcases List.mem_map.1 h with ⟨i, hi, hz⟩
    have hi' : i < (b - a).toNat := List.mem_range.1 hi
    omega
  · intro h
    exact List.mem_map.2 ⟨(z - a).toNat, List.mem_range.2 (by omega), by omega⟩

lemma nodup_intRange (a b : ℤ) : (intRange a b).Nodup := by
  refine List.Nodup.map ?_ (List.nodup_range _)
  intro i j h
  simp only [add_right_inj, Nat.cast_inj] at h
  exact h

@[simp] lemma set_shape0 (p : ScoreField) (y x : ℤ) (s : Score) :
    (p.set y x s).shape0 = p.shape0 := rfl

@[simp] lemma set_shape1 (p : ScoreField) (y x : ℤ) (s : Score) :
    (p.set y x s).shape1 = p.shape1 := rfl

@[simp] lemma drawCellStep_shape0 (y x : ℤ) (v : ℚ) (r : ℕ) (op : Op)
    (p : ScoreField) (y1 x1 : ℤ) :
    (drawCellStep y x v r op p y1 x1).shape0 = p.shape0 := by
  unfold drawCellStep; split <;> [rfl; (split <;> rfl)]

@[simp] lemma drawCellStep_shape1 (y x : ℤ) (v : ℚ) (r : ℕ) (op : Op)
    (p : ScoreField) (y1 x1 : ℤ) :
    (drawCellStep y x v r op p y1 x1).shape1 = p.shape1 := by
  unfold drawCellStep; split <;> [rfl; (split <;> rfl)]

lemma foldl_shape {α : Type} (f : ScoreField → α → ScoreField)
    (h0 : ∀ p a, (f p a).shape0 = p.shape0)
    (h1 : ∀ p a, (f p a).shape1 = p.shape1) :
    ∀ (l : List α) (p : ScoreField),
      (l.foldl f p).shape0 = p.shape0 ∧ (l.foldl f p).shape1 = p.shape1 := by
  intro l
  induction l with
  | nil => intro p; exact ⟨rfl, rfl⟩
  | cons a t ih =>
    intro p
    simpa [List.foldl, h0, h1] using ih (f p a)

/-- The value written by `drawCellStep` at a cell other than `(y1, x1)` is
the old value. -/
lemma drawCellStep_frame (y x : ℤ) (v : ℚ) (r : ℕ) (op : Op)
    (p : ScoreField) (y1 x1 ty tx : ℤ) (h : ¬(ty = y1 ∧ tx = x1)) :
    (drawCellStep y x v r op p y1 x1).val ty tx = p.val ty tx := by
  unfold drawCellStep ScoreField.set
  split
  · rfl
  · split
    · simp only [if_neg h]
    · rfl

/-- The value `drawCellStep` leaves at its own cell `(y1, x1)`. -/
lemma drawCellStep_self (y x : ℤ) (v : ℚ) (r : ℕ) (op : Op)
    (p : ScoreField) (y1 x1 : ℤ) :
    (drawCellStep y x v r op p y1 x1).val y1 x1 =
      if max (y1 - y).natAbs (x1 - x).natAbs = r ∧ p.inB y1 x1
      then applyOp op v (p.val y1 x1) else p.val y1 x1 := by
  unfold drawCellStep
  split
  · rename_i h
    rw [if_neg (fun hc => h hc.1)]
  · rename_i h
    rw [not_ne_iff] at h
    split
    · rename_i hb
      rw [if_pos ⟨h, hb⟩]
      simp [ScoreField.set]
    · rename_i hb
      rw [if_neg (fun hc => hb hc.2)]

/-- Frame rule for the inner (`x1`) loop of `_draw_around`: a cell in a
different row, or whose column the loop never visits, keeps its value. -/
lemma innerFold_frame (y x : ℤ) (v : ℚ) (r : ℕ) (op : Op) (y1 : ℤ)
    (xs : List ℤ) :
    ∀ (p : ScoreField) (ty tx : ℤ), (ty ≠ y1 ∨ tx ∉ xs) →
      (xs.foldl (fun p2 x1 => drawCellStep y x v r op p2 y1 x1) p).val ty tx
        = p.val ty tx := by
  induction xs with
  | nil => intro p ty tx _; rfl
  | cons x1 t ih =>
    intro p ty tx h
    have h' : ty ≠ y1 ∨ tx ∉ t := by
      rcases h with h | h
      · exact Or.inl h
      · exact Or.inr (fun hm => h (List.mem_cons_of_mem _ hm))
    rw [List.foldl_cons, ih _ _ _ h']
    apply drawCellStep_frame
    rintro ⟨rfl, rfl⟩
    rcases h with h | h
    · exact h rfl
    · exact h (List.mem_cons_self _ _)

lemma innerFold_shape (y x : ℤ) (v : ℚ) (r : ℕ) (op : Op) (y1 : ℤ)
    (xs : List ℤ) (p : ScoreField) :
    (xs.foldl (fun p2 x1 => drawCellStep y x v r op p2 y1 x1) p).shape0
        = p.shape0 ∧
    (xs.foldl (fun p2 x1 => drawCellStep y x v r op p2 y1 x1) p).shape1
        = p.shape1 :=
  foldl_shape _ (fun p a => drawCellStep_shape0 y x v r op p y1 a)
    (fun p a => drawCellStep_shape1 y x v r op p y1 a) xs p

/-- In-bounds is invariant along the inner loop. -/
lemma innerFold_inB (y x : ℤ) (v : ℚ) (r : ℕ) (op : Op) (y1 : ℤ)
    (xs : List ℤ) (p : ScoreField) (ty tx : ℤ) :
    (xs.foldl (fun p2 x1 => drawCellStep y x v r op p2 y1 x1) p).inB ty tx
      ↔ p.inB ty tx := by
  unfold ScoreField.inB
  rw [(innerFold_shape y x v r op y1 xs p).1, (innerFold_shape y x v r op y1 xs p).2]

/-- Characterization of the inner loop at a visited column of row `y1`:
the cell is updated exactly once (the loop's columns are distinct). -/
lemma innerFold_char (y x : ℤ) (v : ℚ) (r : ℕ) (op : Op) (y1 : ℤ)
    (xs : List ℤ) :
    xs.Nodup → ∀ (p : ScoreField) (tx : ℤ), tx ∈ xs →
      (xs.foldl (fun p2 x1 => drawCellStep y x v r op p2 y1 x1) p).val y1 tx
        = if max (y1 - y).natAbs (tx - x).natAbs = r ∧ p.inB y1 tx
          then applyOp op v (p.val y1 tx) else p.val y1 tx := by
  induction xs with
  | nil => intro _ p tx hm; cases hm
  | cons x1 t ih =>
    intro hnd p tx hm
    rw [List.nodup_cons] at hnd
    rw [List.foldl_cons]
    by_cases hx : tx = x1
    · subst hx
      rw [innerFold_frame y x v r op y1 t _ y1 tx (Or.inr hnd.1)]
      exact drawCellStep_self y x v r op p y1 tx
    · have hmt : tx ∈ t := by
        rcases List.mem_cons.1 hm with h | h
        · exact absurd h hx
        · exact h
      rw [ih hnd.2 _ tx hmt]
      have hv : (drawCellStep y x v r op p y1 x1).val y1 tx = p.val y1 tx :=
        drawCellStep_frame y x v r op p y1 x1 y1 tx (fun hc => hx hc.2)
      have hb : (drawCellStep y x v r op p y1 x1).inB y1 tx ↔ p.inB y1 tx := by
        unfold ScoreField.inB
        rw [drawCellStep_shape0, drawCellStep_shape1]
      rw [hv]
      by_cases hc : max (y1 - y).natAbs (tx - x).natAbs = r ∧ p.inB y1 tx
      · rw [if_pos hc, if_pos ⟨hc.1, hb.2 hc.2⟩]
      · rw [if_neg hc, if_neg (fun hc2 => hc ⟨hc2.1, hb.1 hc2.2⟩)]

/-- Frame rule for the outer (`y1`) loop of `_draw_around`: a cell whose row
the loop never visits keeps its value. -/
lemma outerFold_frame (y x : ℤ) (v : ℚ) (r : ℕ) (op : Op) (ys : List ℤ) :
    ∀ (q : ScoreField) (ty tx : ℤ), (∀ z ∈ ys, z ≠ ty) →
      (ys.foldl (fun p1 y1 => (intRange (x - r) (x + r + 1)).foldl
          (fun p2 x1 => drawCellStep y x v r op p2 y1 x1) p1) q).val ty tx
        = q.val ty tx := by
  induction ys with
  | nil => intro q ty tx _; rfl
  | cons y1 t ih =>
    intro q ty tx hz
    rw [List.foldl_cons, ih _ _ _ (fun z hzt => hz z (List.mem_cons_of_mem _ hzt)),
      innerFold_frame y x v r op y1 _ q ty tx
        (Or.inl (Ne.symm (hz y1 (List.mem_cons_self _ _))))]

/-- Full pointwise characterization of `_draw_around`: exactly the in-bounds
cells at Chebyshev distance `radius` from `(y, x)` get the operation applied,
every other cell keeps its value. -/
lemma draw_around_val (p : ScoreField) (y x : ℤ) (v : ℚ) (r : ℕ) (op : Op)
    (ty tx : ℤ) :
    (draw_around p y x v r op).val ty tx =
      if max (ty - y).natAbs (tx - x).natAbs = r ∧ p.inB ty tx
      then applyOp op v (p.val ty tx) else p.val ty tx := by
  unfold draw_around
  by_cases hy : ty ∈ intRange (y - r) (y + r + 1)
  case neg =>
    -- row never visited; also the ring condition forces `ty` into the row range
    have hring : ¬(max (ty - y).natAbs (tx - x).natAbs = r ∧ p.inB ty tx) := by
      intro hc
      exact hy (mem_intRange.2 (by have := hc.1; omega))
    rw [if_neg hring]
    exact outerFold_frame y x v r op _ p ty tx (fun z hz => fun he => hy (he ▸ hz))
  case pos =>
    -- split the outer fold at the unique visit of row ty
    have hnd := nodup_intRange (y - r) (y + r + 1)
    have main : ∀ (ys : List ℤ), ys.Nodup → ∀ (q : ScoreField), ty ∈ ys →
        q.shape0 = p.shape0 → q.shape1 = p.shape1 →
        (ys.foldl (fun p1 y1 =>
          (intRange (x - r) (x + r + 1)).foldl
            (fun p2 x1 => drawCellStep y x v r op p2 y1 x1) p1) q).val ty tx
          = if max (ty - y).natAbs (tx - x).natAbs = r ∧ p.inB ty tx
            then applyOp op v (q.val ty tx) else q.val ty tx := by
      intro ys
      induction ys with
      | nil => intro _ q hm; cases hm
      | cons y1 t ihy =>
        intro hnd q hm hs0 hs1
        rw [List.nodup_cons] at hnd
        rw [List.foldl_cons]
        by_cases hy1 : ty = y1
        · subst hy1
          have hfr : ∀ z ∈ t, z ≠ ty := fun z hz he => hnd.1 (he ▸ hz)
          rw [outerFold_frame y x v r op t _ ty tx hfr]
          by_cases hxm : tx ∈ intRange (x - r) (x + r + 1)
          · rw [innerFold_char y x v r op ty _ (nodup_intRange _ _) q tx hxm]
            have hb : q.inB ty tx ↔ p.inB ty tx := by
              unfold ScoreField.inB; rw [hs0, hs1]
            by_cases hc : max (ty - y).natAbs (tx - x).natAbs = r ∧ p.inB ty tx
            · rw [if_pos ⟨hc.1, hb.2 hc.2⟩, if_pos hc]
            · rw [if_neg (fun h2 => hc ⟨h2.1, hb.1 h2.2⟩), if_neg hc]
          · have hring : ¬(max (ty - y).natAbs (tx - x).natAbs = r ∧ p.inB ty tx) := by
              intro hc
              exact hxm (mem_intRange.2 (by have := hc.1; omega))
            rw [if_neg hring]
            exact innerFold_frame y x v r op ty _ q ty tx (Or.inr hxm)
        · have hmt : ty ∈ t := by
            rcases List.mem_cons.1 hm with h | h
            · exact absurd h hy1
            · exact h
          have hs0' := (innerFold_shape y x v r op y1 (intRange (x - r) (x + r + 1)) q).1
          have hs1' := (innerFold_shape y x v r op y1 (intRange (x - r) (x + r + 1)) q).2
          rw [ihy hnd.2 _ hmt (by rw [hs0', hs0]) (by rw [hs1', hs1]),
            innerFold_frame y x v r op y1 _ q ty tx (Or.inl hy1)]
    exact main _ hnd p hy rfl rfl

/-- The inner `for i in range(radius)` loop of `_draw_ranged` for one
direction `(dy, dx)`: visit the cell at offset `i`, skipping (but not
stopping at) out-of-bounds cells, breaking at the first in-bounds
non-walkable cell, applying the operation to every walkable cell traversed.
`fuel` is the number of loop iterations left, so the call in `_draw_ranged`
starts at `i = 0` with `fuel = radius`. -/
def rayLoop (walkable : ℤ → ℤ → Bool) (y x dy dx : ℤ) (v : ℚ) (op : Op) :
    ℕ → ℕ → ScoreField → ScoreField
  | _, 0, p => p
  | i, fuel + 1, p =>
    if p.inB (y + dy * i) (x + dx * i) then
      if walkable (y + dy * i) (x + dx * i) then
        rayLoop walkable y x dy dx v op (i + 1) fuel
          (p.set (y + dy * i) (x + dx * i)
            (applyOp op v (p.val (y + dy * i) (x + dx * i))))
      else p
    else rayLoop walkable y x dy dx v op (i + 1) fuel p

/-- The eight principal directions, in the iteration order of the two
nested `for direction_y/direction_x in (-1, 0, 1)` loops with `(0, 0)`
skipped. -/
def directions8 : List (ℤ × ℤ) :=
  [(-1, -1), (-1, 0), (-1, 1), (0, -1), (0, 1), (1, -1), (1, 0), (1, 1)]

/-- `_draw_ranged(priority, y, x, value, walkable, radius, operation)`. -/
def draw_ranged (p : ScoreField) (y x : ℤ) (v : ℚ) (walkable : ℤ → ℤ → Bool)
    (radius : ℕ) (op : Op) : ScoreField :=
  directions8.foldl (fun p1 d => rayLoop walkable y x d.1 d.2 v op 0 radius p1) p

@[simp] lemma applyOp_isSome (op : Op) (v : ℚ) (s : Score) :
    (applyOp op v s).isSome = s.isSome := by
  cases op <;> cases s <;> rfl

lemma rayLoop_shape (w : ℤ → ℤ → Bool) (y x dy dx : ℤ) (v : ℚ) (op : Op) :
    ∀ (fuel i0 : ℕ) (p : ScoreField),
      (rayLoop w y x dy dx v op i0 fuel p).shape0 = p.shape0 ∧
      (rayLoop w y x dy dx v op i0 fuel p).shape1 = p.shape1 := by
  intro fuel
  induction fuel with
  | zero => intro i0 p; exact ⟨rfl, rfl⟩
  | succ f ih =>
    intro i0 p
    simp only [rayLoop]
    split
    · split
      · simpa using ih (i0 + 1) _
      · exact ⟨rfl, rfl⟩
    · exact ih (i0 + 1) p

/-- Frame rule for one ray: a cell not of the form
`(y + dy·i, x + dx·i)` for a visited index `i` keeps its value. -/
lemma rayLoop_frame (w : ℤ → ℤ → Bool) (y x dy dx : ℤ) (v : ℚ) (op : Op) :
    ∀ (fuel i0 : ℕ) (p : ScoreField) (ty tx : ℤ),
      (∀ i : ℕ, i0 ≤ i → i < i0 + fuel →
        ¬(ty = y + dy * i ∧ tx = x + dx * i)) →
      (rayLoop w y x dy dx v op i0 fuel p).val ty tx = p.val ty tx := by
  intro fuel
  induction fuel with
  | zero => intro i0 p ty tx _; rfl
  | succ f ih =>
    intro i0 p ty tx h
    simp only [rayLoop]
    split
    · split
      · rw [ih (i0 + 1) _ ty tx (fun i h1 h2 => h i (by omega) (by omega))]
        unfold ScoreField.set
        simp only
        rw [if_neg (h i0 le_rfl (by omega))]
      · rfl
    · exact ih (i0 + 1) p ty tx (fun i h1 h2 => h i (by omega) (by omega))

/-- A ray never turns a finite cell into `NaN` or vice versa. -/
lemma rayLoop_isSome (w : ℤ → ℤ → Bool) (y x dy dx : ℤ) (v : ℚ) (op : Op) :
    ∀ (fuel i0 : ℕ) (p : ScoreField) (ty tx : ℤ),
      ((rayLoop w y x dy dx v op i0 fuel p).val ty tx).isSome
        = ((p.val ty tx).isSome) := by
  intro fuel
  induction fuel with
  | zero => intro i0 p ty tx; rfl
  | succ f ih =>
    intro i0 p ty tx
    simp only [rayLoop]
    split
    · split
      · rw [ih (i0 + 1)]
        unfold ScoreField.set
        simp only
        split
        · rename_i he
          rw [he.1, he.2, applyOp_isSome]
        · rfl
      · rfl
    · exact ih (i0 + 1) p ty tx

/-- Generic pointwise `isSome`-preservation through a fold. -/
lemma foldl_val_isSome {α : Type} (f : ScoreField → α → ScoreField) (ty tx : ℤ)
    (h : ∀ p a, ((f p a).val ty tx).isSome = ((p.val ty tx).isSome)) :
    ∀ (l : List α) (p : ScoreField),
      ((l.foldl f p).val ty tx).isSome = ((p.val ty tx).isSome) := by
  intro l
  induction l with
  | nil => intro p; rfl
  | cons a t ih => intro p; rw [List.foldl_cons, ih, h]

lemma drawCellStep_isSome (y x : ℤ) (v : ℚ) (r : ℕ) (op : Op)
    (p : ScoreField) (y1 x1 ty tx : ℤ) :
    ((drawCellStep y x v r op p y1 x1).val ty tx).isSome
      = ((p.val ty tx).isSome) := by
  unfold drawCellStep ScoreField.set
  split
  · rfl
  · split
    · simp only
      split
      · rename_i he
        rw [he.1, he.2, applyOp_isSome]
      · rfl
    · rfl

lemma draw_around_isSome (p : ScoreField) (y x : ℤ) (v : ℚ) (r : ℕ) (op : Op)
    (ty tx : ℤ) :
    ((draw_around p y x v r op).val ty tx).isSome = ((p.val ty tx).isSome) := by
  unfold draw_around
  exact foldl_val_isSome _ ty tx
    (fun p1 y1 => foldl_val_isSome _ ty tx
      (fun p2 x1 => drawCellStep_isSome y x v r op p2 y1 x1 ty tx) _ p1) _ p

lemma draw_ranged_isSome (p : ScoreField) (y x : ℤ) (v : ℚ)
    (w : ℤ → ℤ → Bool) (r : ℕ) (op : Op) (ty tx : ℤ) :
    ((draw_ranged p y x v w r op).val ty tx).isSome = ((p.val ty tx).isSome) := by
  unfold draw_ranged
  exact foldl_val_isSome _ ty tx
    (fun p1 (d : ℤ × ℤ) => rayLoop_isSome w y x d.1 d.2 v op r 0 p1 ty tx) _ p

@[simp] lemma set_self (p : ScoreField) (y x : ℤ) (s : Score) :
    (p.set y x s).val y x = s := by
  unfold ScoreField.set
  simp

/-- Offsets along a genuine direction determine the index. -/
lemma ray_index_inj {dy dx : ℤ} (hd : ¬(dy = 0 ∧ dx = 0)) {y x : ℤ} {i j : ℕ}
    (h1 : y + dy * i = y + dy * j) (h2 : x + dx * i = x + dx * j) : i = j := by
  rcases not_and_or.1 hd with h | h
  · have hm : dy * (i : ℤ) = dy * (j : ℤ) := by linarith
    exact_mod_cast mul_left_cancel₀ h hm
  · have hm : dx * (i : ℤ) = dx * (j : ℤ) := by linarith
    exact_mod_cast mul_left_cancel₀ h hm

/-- Once the ray meets an in-bounds non-walkable cell at offset `j`, no cell
at offset `≥ j` along that ray is ever written. -/
lemma rayLoop_blocked (w : ℤ → ℤ → Bool) (y x dy dx : ℤ) (v : ℚ) (op : Op)
    (hdir : ¬(dy = 0 ∧ dx = 0)) (j : ℕ)
    (hw : w (y + dy * j) (x + dx * j) = false) :
    ∀ (fuel i0 : ℕ) (q : ScoreField), i0 ≤ j →
      q.inB (y + dy * j) (x + dx * j) →
      ∀ i : ℕ, j ≤ i →
        (rayLoop w y x dy dx v op i0 fuel q).val (y + dy * i) (x + dx * i)
          = q.val (y + dy * i) (x + dx * i) := by
  intro fuel
  induction fuel with
  | zero => intro i0 q _ _ i _; rfl
  | succ f ih =>
    intro i0 q hij hb i hji
    simp only [rayLoop]
    split
    · split
      · rename_i hbi hwi
        have hne : i0 ≠ j := by
          intro he
          rw [he, hw] at hwi
          exact Bool.false_ne_true hwi
        rw [ih (i0 + 1)
          (q.set (y + dy * (i0 : ℤ)) (x + dx * (i0 : ℤ))
            (applyOp op v (q.val (y + dy * (i0 : ℤ)) (x + dx * (i0 : ℤ)))))
          (by omega) hb i hji]
        unfold ScoreField.set
        simp only
        rw [if_neg]
        rintro ⟨he1, he2⟩
        exact absurd (ray_index_inj hdir he1 he2) (by omega)
      · rfl
    · rename_i hbi
      have hne : i0 ≠ j := fun he => hbi (he ▸ hb)
      exact ih (i0 + 1) q (by omega) hb i hji

/-- A ray whose own origin cell is in-bounds and non-walkable writes nothing. -/
lemma rayLoop_center_blocked (w : ℤ → ℤ → Bool) (y x dy dx : ℤ) (v : ℚ)
    (op : Op) (fuel : ℕ) (q : ScoreField) (hb : q.inB y x)
    (hw : w y x = false) :
    rayLoop w y x dy dx v op 0 fuel q = q := by
  cases fuel with
  | zero => rfl
  | succ f =>
    simp only [rayLoop, Nat.cast_zero, mul_zero, add_zero]
    rw [if_pos hb, if_neg]
    rw [hw]
    exact Bool.false_ne_true

/-- A ray along a genuine direction whose origin is in-bounds and walkable
applies the operation to the origin exactly once. -/
lemma rayLoop_center (w : ℤ → ℤ → Bool) (y x dy dx : ℤ) (v : ℚ) (op : Op)
    (hdir : ¬(dy = 0 ∧ dx = 0)) (fuel : ℕ) (hf : 1 ≤ fuel) (q : ScoreField)
    (hb : q.inB y x) (hw : w y x = true) :
    (rayLoop w y x dy dx v op 0 fuel q).val y x = applyOp op v (q.val y x) := by
  cases fuel with
  | zero => omega
  | succ f =>
    simp only [rayLoop, Nat.cast_zero, mul_zero, add_zero]
    rw [if_pos hb, if_pos hw]
    rw [rayLoop_frame w y x dy dx v op f 1 _ y x ?_]
    · exact set_self q y x _
    · intro i h1 _ hc
      rcases hc with ⟨hc1, hc2⟩
      have hy : dy * (i : ℤ) = 0 := by linarith
      have hx : dx * (i : ℤ) = 0 := by linarith
      rcases mul_eq_zero.1 hy with h | h
      · rcases mul_eq_zero.1 hx with h' | h'
        · exact hdir ⟨h, h'⟩
        · have : i = 0 := by exact_mod_cast h'
          omega
      · have : i = 0 := by exact_mod_cast h
        omega

/-- Each direction's components lie in `{-1, 0, 1}` and are not both zero. -/
lemma dir_comp_bounds {d : ℤ × ℤ} (hd : d ∈ directions8) :
    (d.1 = -1 ∨ d.1 = 0 ∨ d.1 = 1) ∧ (d.2 = -1 ∨ d.2 = 0 ∨ d.2 = 1) ∧
      ¬(d.1 = 0 ∧ d.2 = 0) := by
  simp only [directions8, List.mem_cons, List.not_mem_nil, or_false] at hd
  rcases hd with rfl | rfl | rfl | rfl | rfl | rfl | rfl | rfl <;> norm_num

/-- Cells at a positive offset along one direction are never cells of a
different direction's ray. -/
lemma dirs_disjoint {d e : ℤ × ℤ} (hd : d ∈ directions8)
    (he : e ∈ directions8) (hne : e ≠ d) (y x : ℤ) (i k : ℕ) (hi : 1 ≤ i) :
    ¬(y + d.1 * i = y + e.1 * k ∧ x + d.2 * i = x + e.2 * k) := by
  simp only [directions8, List.mem_cons, List.not_mem_nil, or_false] at hd he
  rcases hd with rfl | rfl | rfl | rfl | rfl | rfl | rfl | rfl <;>
    rcases he with rfl | rfl | rfl | rfl | rfl | rfl | rfl | rfl <;>
      first
        | exact absurd rfl hne
        | (rintro ⟨h1, h2⟩; simp only at h1 h2; omega)

/-- If the entity's own cell is in-bounds and non-walkable, every ray breaks
immediately and `_draw_ranged` is the identity. -/
lemma draw_ranged_center_blocked (p : ScoreField) (y x : ℤ) (v : ℚ)
    (w : ℤ → ℤ → Bool) (r : ℕ) (op : Op) (hb : p.inB y x)
    (hw : w y x = false) :
    draw_ranged p y x v w r op = p := by
  unfold draw_ranged
  have : ∀ (l : List (ℤ × ℤ)),
      l.foldl (fun p1 d => rayLoop w y x d.1 d.2 v op 0 r p1) p = p := by
    intro l
    induction l with
    | nil => rfl
    | cons d t ih =>
      rw [List.foldl_cons, rayLoop_center_blocked w y x d.1 d.2 v op r p hb hw, ih]
  exact this _

lemma draw_ranged_shape (p : ScoreField) (y x : ℤ) (v : ℚ)
    (w : ℤ → ℤ → Bool) (r : ℕ) (op : Op) :
    (draw_ranged p y x v w r op).shape0 = p.shape0 ∧
    (draw_ranged p y x v w r op).shape1 = p.shape1 := by
  unfold draw_ranged
  exact foldl_shape _
    (fun q (d : ℤ × ℤ) => (rayLoop_shape w y x d.1 d.2 v op r 0 q).1)
    (fun q (d : ℤ × ℤ) => (rayLoop_shape w y x d.1 d.2 v op r 0 q).2) _ p

/-- Core of C3 for a blocker strictly outward (`1 ≤ j`): no cell at offset
`≥ j` along direction `d` is changed by `_draw_ranged`. -/
lemma draw_ranged_blocked (p : ScoreField) (y x : ℤ) (v : ℚ)
    (w : ℤ → ℤ → Bool) (r : ℕ) (op : Op) {d : ℤ × ℤ} (hd : d ∈ directions8)
    (j i : ℕ) (h1 : 1 ≤ j) (hji : j ≤ i)
    (hb : p.inB (y + d.1 * j) (x + d.2 * j))
    (hw : w (y + d.1 * j) (x + d.2 * j) = false) :
    (draw_ranged p y x v w r op).val (y + d.1 * i) (x + d.2 * i)
      = p.val (y + d.1 * i) (x + d.2 * i) := by
  unfold draw_ranged
  have main : ∀ (l : List (ℤ × ℤ)), (∀ e ∈ l, e ∈ directions8) →
      ∀ (q : ScoreField), q.shape0 = p.shape0 → q.shape1 = p.shape1 →
      (l.foldl (fun p1 e => rayLoop w y x e.1 e.2 v op 0 r p1) q).val
          (y + d.1 * i) (x + d.2 * i)
        = q.val (y + d.1 * i) (x + d.2 * i) := by
    intro l
    induction l with
    | nil => intro _ q _ _; rfl
    | cons e t ih =>
      intro hl q hs0 hs1
      have hs0' := (rayLoop_shape w y x e.1 e.2 v op r 0 q).1
      have hs1' := (rayLoop_shape w y x e.1 e.2 v op r 0 q).2
      rw [List.foldl_cons,
        ih (fun a ha => hl a (List.mem_cons_of_mem _ ha)) _
          (by rw [hs0', hs0]) (by rw [hs1', hs1])]
      by_cases hed : e = d
      · subst hed
        have hqb : q.inB (y + e.1 * j) (x + e.2 * j) := by
          unfold ScoreField.inB at hb ⊢
          rw [hs0, hs1]
          exact hb
        exact rayLoop_blocked w y x e.1 e.2 v op
          (dir_comp_bounds (hl e (List.mem_cons_self _ _))).2.2 j hw r 0 q
          (Nat.zero_le j) hqb i hji
      · exact rayLoop_frame w y x e.1 e.2 v op r 0 q _ _
          (fun k _ _ hc =>
            dirs_disjoint hd (hl e (List.mem_cons_self _ _)) hed y x i k
              (by omega) ⟨hc.1, hc.2⟩)
  exact main directions8 (fun e he => he) p rfl rfl

/-- General frame for `_draw_ranged`: a cell that is not at offset `< radius`
along any of the 8 directions keeps its value. -/
lemma draw_ranged_frame (p : ScoreField) (y x : ℤ) (v : ℚ)
    (w : ℤ → ℤ → Bool) (r : ℕ) (op : Op) (ty tx : ℤ)
    (h : ∀ d ∈ directions8, ∀ i : ℕ, i < r →
      ¬(ty = y + d.1 * i ∧ tx = x + d.2 * i)) :
    (draw_ranged p y x v w r op).val ty tx = p.val ty tx := by
  unfold draw_ranged
  have main : ∀ (l : List (ℤ × ℤ)), (∀ e ∈ l, e ∈ directions8) →
      ∀ (q : ScoreField),
      (l.foldl (fun p1 e => rayLoop w y x e.1 e.2 v op 0 r p1) q).val ty tx
        = q.val ty tx := by
    intro l
    induction l with
    | nil => intro _ q; rfl
    | cons e t ih =>
      intro hl q
      rw [List.foldl_cons, ih (fun a ha => hl a (List.mem_cons_of_mem _ ha)),
        rayLoop_frame w y x e.1 e.2 v op r 0 q ty tx
          (fun i _ h2 => h e (hl e (List.mem_cons_self _ _)) i (by omega))]
  exact main directions8 (fun e he => he) p

/-- No cell at Chebyshev distance `≥ radius` from the entity is ever touched
by `_draw_ranged`. -/
lemma draw_ranged_far_frame (p : ScoreField) (y x : ℤ) (v : ℚ)
    (w : ℤ → ℤ → Bool) (r : ℕ) (op : Op) (ty tx : ℤ)
    (hfar : r ≤ max (ty - y).natAbs (tx - x).natAbs) :
    (draw_ranged p y x v w r op).val ty tx = p.val ty tx := by
  apply draw_ranged_frame
  intro d hd i hi hc
  have hcb := dir_comp_bounds hd
  have h1 : ty - y = d.1 * i := by linarith [hc.1]
  have h2 : tx - x = d.2 * i := by linarith [hc.2]
  rcases hcb.1 with he | he | he <;> rcases hcb.2.1 with he' | he' | he' <;>
    (rw [he] at h1; rw [he'] at h2; omega)

/-- The entity's own (in-bounds, walkable) cell receives one `add`
contribution per direction walked, i.e. `l.length · value` over a direction
list. -/
lemma foldl_center_add (p : ScoreField) (y x : ℤ) (v : ℚ)
    (w : ℤ → ℤ → Bool) (r : ℕ) (hr : 1 ≤ r) (hb : p.inB y x)
    (hw : w y x = true) :
    ∀ (l : List (ℤ × ℤ)), (∀ e ∈ l, e ∈ directions8) →
      ∀ (q : ScoreField), q.shape0 = p.shape0 → q.shape1 = p.shape1 →
      (l.foldl (fun p1 e => rayLoop w y x e.1 e.2 v .add 0 r p1) q).val y x
        = (q.val y x).map (· + (l.length : ℚ) * v) := by
  intro l
  induction l with
  | nil =>
    intro _ q _ _
    rw [List.foldl_nil]
    cases hq : q.val y x with
    | none => rfl
    | some c => simp
  | cons e t ih =>
    intro hl q hs0 hs1
    have hqb : q.inB y x := by
      unfold ScoreField.inB at hb ⊢
      rw [hs0, hs1]
      exact hb
    have hs0' := (rayLoop_shape w y x e.1 e.2 v .add r 0 q).1
    have hs1' := (rayLoop_shape w y x e.1 e.2 v .add r 0 q).2
    rw [List.foldl_cons,
      ih (fun a ha => hl a (List.mem_cons_of_mem _ ha)) _
        (by rw [hs0', hs0]) (by rw [hs1', hs1]),
      rayLoop_center w y x e.1 e.2 v .add
        (dir_comp_bounds (hl e (List.mem_cons_self _ _))).2.2 r hr q hqb hw]
    cases hq : q.val y x with
    | none => rfl
    | some c =>
      show some (c + v + (t.length : ℚ) * v)
        = some (c + ((t.length + 1 : ℕ) : ℚ) * v)
      congr 1
      push_cast
      ring

/-- `needle` is a prefix of `hay` (character lists). -/
def charsPref : List Char → List Char → Bool
  | _, [] => true
  | [], _ :: _ => false
  | h :: hs, n :: ns => h == n && charsPref hs ns

/-- Substring occurrence on character lists. -/
def charsHas : List Char → List Char → Bool
  | [], needle => needle.isEmpty
  | h :: t, needle => charsPref (h :: t) needle || charsHas t needle

/-- Python's substring test `needle in hay`. -/
def strHas (hay needle : String) : Bool := charsHas hay.data needle.data

def ONLY_RANGED_SLOW_MONSTERS : List String :=
  ["floating eye", "blue jelly", "brown mold"]

/-- `COLD_MONSTERS` is the empty list in the source (the `brown mold` entry
is commented out). -/
def COLD_MONSTERS : List String := []

def EXPLODING_MONSTERS : List String := ["yellow light", "gas spore"]

def WEAK_MONSTERS : List String := ["lichen", "newt"]

def WEIRD_MONSTERS : List String := ["leprechaun", "nymph"]

structure MonInfo where
  mname : String

/-- One element of `agent.get_visible_monsters()`: the source unpacks a
5-tuple `(_, y, x, mon, _)` and reads only the position and the monster
info. -/
structure Monster where
  y : ℤ
  x : ℤ
  mon : MonInfo

structure Blstats where
  y : ℤ
  x : ℤ
  hitpoints : ℤ
  max_hitpoints : ℤ

/-- The slice of an inventory item that `fight_heur` reads: the results of
`item.is_launcher()` and `item.is_weapon()` and the `equipped` flag. -/
structure InvItem where
  launcher : Bool
  weapon : Bool
  equipped : Bool

/-- The slice of the agent state read by `fight_heur.py`:
`ranged_combinations` is the result of the external
`agent.get_ranged_combinations()` (an optional launcher paired with ammo),
`monsters` is `agent.get_visible_monsters()`, `walkable` is
`agent.current_level().walkable`, `shape0 × shape1` the common shape of the
level arrays, `glyphs` the glyph grid and `pets` the membership test of a
glyph in the external set `G.PETS`. -/
structure Agent where
  blstats : Blstats
  items : List InvItem
  ranged_combinations : List (Option InvItem × InvItem)
  monsters : List Monster
  shape0 : ℕ
  shape1 : ℕ
  walkable : ℤ → ℤ → Bool
  glyphs : ℤ → ℤ → ℤ
  pets : ℤ → Bool

/-- `wielding_ranged_weapon`: some inventory item is an equipped launcher. -/
def wielding_ranged_weapon (agent : Agent) : Bool :=
  agent.items.any (fun item => item.launcher && item.equipped)

/-- `wielding_melee_weapon`: some inventory item is an equipped weapon. -/
def wielding_melee_weapon (agent : Agent) : Bool :=
  agent.items.any (fun item => item.weapon && item.equipped)

/-- `is_monster_faster`: substring matching on the monster name (the agent
argument is unused, as in the source). -/
def is_monster_faster (agent : Agent) (monster : Monster) : Bool :=
  strHas monster.mon.mname "bat" || strHas monster.mon.mname "dog" ||
  strHas monster.mon.mname "cat" || strHas monster.mon.mname "kitten" ||
  strHas monster.mon.mname "pony" || strHas monster.mon.mname "horse" ||
  strHas monster.mon.mname "bee" || strHas monster.mon.mname "fox"

/-- `draw_monster_priority_positive(agent, monster, priority, walkable)`. -/
def draw_monster_priority_positive (agent : Agent) (monster : Monster)
    (priority : ScoreField) (walkable : ℤ → ℤ → Bool) : ScoreField :=
  let y := monster.y
  let x := monster.x
  let mname := monster.mon.mname
  -- don't move into the monster: `priority[y, x] = float('nan')`
  let p := priority.set y x none
  if mname ∈ WEAK_MONSTERS then
    -- weak monster - freely engage in melee
    draw_around (draw_around p y x 2 1 .max) y x 1 2 .max
  else if strHas mname "mold" ∧ mname ∉ COLD_MONSTERS ++ ONLY_RANGED_SLOW_MONSTERS then
    if 15 ≤ agent.blstats.hitpoints ∨
        agent.blstats.hitpoints = agent.blstats.max_hitpoints then
      draw_around (draw_around p y x 2 1 .max) y x 1 2 .max
    else p
  else if mname ∈ ONLY_RANGED_SLOW_MONSTERS then
    p
  else
    let p2 := if 8 < agent.blstats.hitpoints ∧ ¬ wielding_ranged_weapon agent
      then draw_around p y x 3 2 .max else p
    if wielding_ranged_weapon agent then
      draw_ranged p2 y x 4 walkable 6 .max
    else p2

/-- `draw_monster_priority_negative(agent, monster, priority, walkable)`. -/
def draw_monster_priority_negative (agent : Agent) (monster : Monster)
    (priority : ScoreField) (walkable : ℤ → ℤ → Bool) : ScoreField :=
  let y := monster.y
  let x := monster.x
  let mname := monster.mon.mname
  if agent.blstats.hitpoints ≤ 8 ∧ ¬ is_monster_faster agent monster ∧
      mname ∉ WEAK_MONSTERS ∧ mname ∉ ONLY_RANGED_SLOW_MONSTERS then
    -- stay out of melee range
    let p := draw_around priority y x (-10) 1 .add
    if agent.ranged_combinations.length = 0 then
      draw_ranged p y x (-1) walkable 6 .add
    else p
  else if strHas mname "mold" ∧ mname ∉ COLD_MONSTERS ++ ONLY_RANGED_SLOW_MONSTERS then
    if agent.ranged_combinations.length ≠ 0 then
      draw_ranged priority y x 2 walkable 5 .add
    else priority
  else if mname ∈ WEIRD_MONSTERS then
    -- stay away
    let p := draw_around priority y x (-10) 1 .add
    if agent.ranged_combinations.length ≠ 0 then
      draw_ranged p y x 6 walkable 5 .add
    else p
  else if mname ∈ ONLY_RANGED_SLOW_MONSTERS then
    priority
  else
    if mname ∉ WEAK_MONSTERS then
      let p := draw_around priority y x (-9) 1 .add
      if agent.ranged_combinations.length = 0 then
        draw_ranged p y x (-1) walkable 6 .add
      else p
    else priority

/-- `melee_monster_priority(agent, monsters, monster)` (the `monsters`
argument is unused, as in the source). -/
def melee_monster_priority (agent : Agent) (monsters : List Monster)
    (monster : Monster) : ℤ :=
  let ret : ℤ := 1
  let ret := if 8 < agent.blstats.hitpoints ∨ is_monster_faster agent monster
    then ret + 15 else ret
  let ret := if wielding_ranged_weapon agent ∧ ¬ is_monster_faster agent monster
    then ret - 6 else ret
  let ret := if monster.mon.mname ∈ COLD_MONSTERS then
      let r := if agent.blstats.hitpoints < 20 ∧
          agent.blstats.hitpoints ≠ agent.blstats.max_hitpoints
        then ret - 15 else ret
      r - 1
    else ret
  let ret := if monster.mon.mname ∈ ONLY_RANGED_SLOW_MONSTERS then ret - 100
    else ret
  ret

/-- The `while y1 != y or x1 != x` obstacle scan of
`ranged_monster_priority`: subtract 100 for every strictly-between cell on
the line of fire that holds a pet glyph or is non-walkable.  `fuel` bounds
the recursion; the caller passes the Chebyshev distance between agent and
monster, which is an upper bound on (one more than) the iteration count of
the source loop once the alignment test has passed. -/
def line_of_fire_scan (agent : Agent) (y x dy dx : ℤ) :
    ℕ → ℤ → ℤ → ℤ → ℤ
  | 0, _, _, ret => ret
  | fuel + 1, y1, x1, ret =>
    if y1 ≠ y ∨ x1 ≠ x then
      line_of_fire_scan agent y x dy dx fuel (y1 + dy) (x1 + dx)
        (if agent.pets (agent.glyphs y1 x1) ∨ ¬ agent.walkable y1 x1 then
          ret - 100 else ret)
    else ret

/-- `ranged_monster_priority(agent, y, x, mon)`; `none` is Python's `None`
("not applicable").  The `mon` argument is unused, as in the source. -/
def ranged_monster_priority (agent : Agent) (y x : ℤ) (mon : MonInfo) :
    Option ℤ :=
  let ret : ℤ := 0
  if ¬(agent.blstats.y = y ∨ agent.blstats.x = x ∨
      (agent.blstats.y - y).natAbs = (agent.blstats.x - x).natAbs) then
    none
  else
    let ret := if max (agent.blstats.x - x).natAbs (agent.blstats.y - y).natAbs = 1 ∨
        max (agent.blstats.x - x).natAbs (agent.blstats.y - y).natAbs = 2
      then ret - 5 else ret
    let ret := if max (agent.blstats.y - y).natAbs (agent.blstats.x - x).natAbs = 1
      then ret - 6 else ret
    match agent.ranged_combinations with
    | [] => none
    | (launcher, _ammo) :: _ =>
      let ret := match launcher with
        | some l => if ¬ l.equipped then ret - 5 else ret
        | none => ret
      let dy := (y - agent.blstats.y).sign
      let dx := (x - agent.blstats.x).sign
      let ret := line_of_fire_scan agent y x dy dx
        (max (y - agent.blstats.y).natAbs (x - agent.blstats.x).natAbs)
        (agent.blstats.y + dy) (agent.blstats.x + dx) ret
      some (ret + 11)

inductive ActionKind where
  | melee
  | ranged
deriving DecidableEq, Repr

/-- Modelled from the spec: `utils.adjacent` (the repository's `utils`
module is not among the given sources); per the spec's engagement rule
("if adjacent, compute a melee priority"), adjacency is Chebyshev distance
exactly 1. -/
def adjacent (p1 p2 : ℤ × ℤ) : Bool :=
  max (p1.1 - p2.1).natAbs (p1.2 - p2.2).natAbs == 1

/-- Loop body of `get_available_actions` for one monster: append a melee
entry when adjacent, then a ranged entry when `ranged_monster_priority` is
not `None`. -/
def gaa_step (agent : Agent) (monsters : List Monster)
    (actions : List (ℤ × ActionKind × ℤ × ℤ)) (monster : Monster) :
    List (ℤ × ActionKind × ℤ × ℤ) :=
  let a1 := if adjacent (monster.y, monster.x)
      (agent.blstats.y, agent.blstats.x) then
      actions ++ [(melee_monster_priority agent monsters monster,
        ActionKind.melee, monster.y, monster.x)]
    else actions
  match ranged_monster_priority agent monster.y monster.x monster.mon with
  | some pr => a1 ++ [(pr, ActionKind.ranged, monster.y, monster.x)]
  | none => a1

/-- `get_available_actions(agent, monsters)`. -/
def get_available_actions (agent : Agent) (monsters : List Monster) :
    List (ℤ × ActionKind × ℤ × ℤ) :=
  monsters.foldl (gaa_step agent monsters) []

/-- `build_priority_map(agent)`: zero field, positive pass, negative pass,
`NaN` on non-walkable cells, re-base by the agent's own cell. -/
def build_priority_map (agent : Agent) :
    ScoreField × List (ℤ × ActionKind × ℤ × ℤ) :=
  let walkable := agent.walkable
  let priority : ScoreField := ⟨agent.shape0, agent.shape1, fun _ _ => some 0⟩
  let monsters := agent.monsters
  let p1 := monsters.foldl
    (fun p m => draw_monster_priority_positive agent m p walkable) priority
  let p2 := monsters.foldl
    (fun p m => draw_monster_priority_negative agent m p walkable) p1
  let maskVal : ℤ → ℤ → Score := fun y x =>
    if (0 ≤ y ∧ y < p2.shape0 ∧ 0 ≤ x ∧ x < p2.shape1) ∧ ¬ walkable y x then
      none
    else p2.val y x
  let p3 : ScoreField := { p2 with val := maskVal }
  let rebasedVal : ℤ → ℤ → Score := fun y x =>
    scoreSub (p3.val y x) (p3.val agent.blstats.y agent.blstats.x)
  let p4 : ScoreField := { p3 with val := rebasedVal }
  (p4, get_available_actions agent monsters)

/-- C2: a ring contribution applied with the `add` operation adds `value` to
exactly the in-bounds cells at Chebyshev distance exactly `radius` from the
center `(y, x)` (a NaN cell stays NaN under numpy's `+=`), and leaves every
other cell of the array unchanged. -/
theorem claim_C2_ring_add (p : ScoreField) (y x : ℤ) (v : ℚ) (r : ℕ)
    (ty tx : ℤ) :
    (draw_around p y x v r .add).val ty tx =
      if max (ty - y).natAbs (tx - x).natAbs = r ∧ p.inB ty tx
      then scoreAdd (p.val ty tx) v
      else p.val ty tx :=
  draw_around_val p y x v r .add ty tx

/-- C3: along any of the 8 principal directions, if the cell at offset `j`
from the entity is in-bounds and non-walkable, then no cell at offset
`i ≥ j` along that direction receives any contribution from `_draw_ranged`:
nothing reaches past the first blocker along a ray. -/
theorem claim_C3_ray_blocked (p : ScoreField) (y x : ℤ) (v : ℚ)
    (w : ℤ → ℤ → Bool) (r : ℕ) (op : Op) (d : ℤ × ℤ) (hd : d ∈ directions8)
    (j i : ℕ) (hji : j ≤ i)
    (hb : p.inB (y + d.1 * j) (x + d.2 * j))
    (hw : w (y + d.1 * j) (x + d.2 * j) = false) :
    (draw_ranged p y x v w r op).val (y + d.1 * i) (x + d.2 * i)
      = p.val (y + d.1 * i) (x + d.2 * i) := by
  cases Nat.eq_zero_or_pos j with
  | inl h0 =>
    subst h0
    have hb' : p.inB y x := by simpa using hb
    have hw' : w y x = false := by simpa using hw
    rw [draw_ranged_center_blocked p y x v w r op hb' hw']
  | inr hpos => exact draw_ranged_blocked p y x v w r op hd j i hpos hji hb hw

def c3field : ScoreField := ⟨3, 3, fun _ _ => some 0⟩

def c3walk : ℤ → ℤ → Bool := fun _ x => x == 0

theorem claim_C3_ray_blocked_witness :
    ((0, 1) : ℤ × ℤ) ∈ directions8 ∧ (1 : ℕ) ≤ 2 ∧
    c3field.inB (0 + (0 : ℤ) * (1 : ℕ)) (0 + (1 : ℤ) * (1 : ℕ)) ∧
    c3walk (0 + (0 : ℤ) * (1 : ℕ)) (0 + (1 : ℤ) * (1 : ℕ)) = false ∧
    (draw_ranged c3field 0 0 5 c3walk 6 .add).val
        (0 + (0 : ℤ) * (2 : ℕ)) (0 + (1 : ℤ) * (2 : ℕ))
      = c3field.val (0 + (0 : ℤ) * (2 : ℕ)) (0 + (1 : ℤ) * (2 : ℕ)) :=
  ⟨by decide, by decide, by decide, by decide,
    claim_C3_ray_blocked c3field 0 0 5 c3walk 6 .add (0, 1) (by decide) 1 2
      (by decide) (by decide) (by decide)⟩

/-- C10: the ray walk starts at the entity's own cell: when that cell is
in-bounds and walkable it receives one contribution per direction
(`8 · value` under `add`), and no cell at Chebyshev distance `≥ radius`
from the entity ever receives any contribution. -/
theorem claim_C10_ray_offsets (p : ScoreField) (y x : ℤ) (v : ℚ)
    (w : ℤ → ℤ → Bool) (r : ℕ) (hr : 1 ≤ r) (hb : p.inB y x)
    (hw : w y x = true) :
    (draw_ranged p y x v w r .add).val y x = (p.val y x).map (· + 8 * v) ∧
    (∀ (ty tx : ℤ) (op : Op), r ≤ max (ty - y).natAbs (tx - x).natAbs →
      (draw_ranged p y x v w r op).val ty tx = p.val ty tx) := by
  constructor
  · have h := foldl_center_add p y x v w r hr hb hw directions8
      (fun e he => he) p rfl rfl
    unfold draw_ranged
    rw [h]
    norm_num [directions8]
  · intro ty tx op hfar
    exact draw_ranged_far_frame p y x v w r op ty tx hfar

def c10field : ScoreField := ⟨3, 3, fun _ _ => some 1⟩

def c10walk : ℤ → ℤ → Bool := fun _ _ => true

theorem claim_C10_ray_offsets_witness :
    (1 : ℕ) ≤ 2 ∧ c10field.inB 1 1 ∧ c10walk 1 1 = true ∧
    ((draw_ranged c10field 1 1 3 c10walk 2 .add).val 1 1
        = (c10field.val 1 1).map (· + 8 * 3) ∧
      (∀ (ty tx : ℤ) (op : Op),
        2 ≤ max (ty - 1).natAbs (tx - 1).natAbs →
        (draw_ranged c10field 1 1 3 c10walk 2 op).val ty tx
          = c10field.val ty tx)) :=
  ⟨by decide, by decide, by decide,
    claim_C10_ray_offsets c10field 1 1 3 c10walk 2 (by decide) (by decide)
      (by decide)⟩

/-- C6: for an adjacent monster the melee priority is exactly
base 1, plus 15 when the agent is healthy (hp > 8) or the monster is
faster, minus 6 when a ranged weapon is wielded and the monster is not
faster, minus 100 for an only-ranged-slow monster; with `COLD_MONSTERS`
empty, no other term contributes. -/
theorem claim_C6_melee_formula (agent : Agent) (monsters : List Monster)
    (monster : Monster)
    (hadj : adjacent (monster.y, monster.x)
      (agent.blstats.y, agent.blstats.x) = true) :
    melee_monster_priority agent monsters monster =
      1 + (if 8 < agent.blstats.hitpoints ∨ is_monster_faster agent monster
            then 15 else 0)
        - (if wielding_ranged_weapon agent ∧ ¬ is_monster_faster agent monster
            then 6 else 0)
        - (if monster.mon.mname ∈ ONLY_RANGED_SLOW_MONSTERS then 100 else 0) := by
  have hcold : monster.mon.mname ∉ COLD_MONSTERS := by
    simp [COLD_MONSTERS]
  simp only [melee_monster_priority]
  rw [if_neg hcold]
  split_ifs <;> omega

def c6agent : Agent :=
  { blstats := ⟨5, 5, 14, 14⟩
    items := []
    ranged_combinations := []
    monsters := [⟨5, 6, ⟨"newt"⟩⟩]
    shape0 := 21
    shape1 := 79
    walkable := fun _ _ => true
    glyphs := fun _ _ => 0
    pets := fun _ => false }

theorem claim_C6_melee_formula_witness :
    adjacent (((5 : ℤ), (6 : ℤ))) ((c6agent.blstats.y, c6agent.blstats.x)) = true ∧
    melee_monster_priority c6agent [] ⟨5, 6, ⟨"newt"⟩⟩ =
      1 + (if 8 < c6agent.blstats.hitpoints ∨
              is_monster_faster c6agent ⟨5, 6, ⟨"newt"⟩⟩ then 15 else 0)
        - (if wielding_ranged_weapon c6agent ∧
              ¬ is_monster_faster c6agent ⟨5, 6, ⟨"newt"⟩⟩ then 6 else 0)
        - (if (Monster.mk 5 6 ⟨"newt"⟩).mon.mname ∈ ONLY_RANGED_SLOW_MONSTERS
            then 100 else 0) :=
  ⟨by decide, claim_C6_melee_formula c6agent [] ⟨5, 6, ⟨"newt"⟩⟩ (by decide)⟩

/-- With no ranged combinations, `ranged_monster_priority` is `None`
(the loadout check fires after the alignment and distance checks, before
anything is returned). -/
lemma ranged_priority_none_of_empty (agent : Agent)
    (h : agent.ranged_combinations = []) (y x : ℤ) (mon : MonInfo) :
    ranged_monster_priority agent y x mon = none := by
  unfold ranged_monster_priority
  rw [h]
  split <;> rfl

/-- With no ranged combinations, one `get_available_actions` loop step only
appends melee entries. -/
lemma gaa_step_no_ranged (agent : Agent)
    (h : agent.ranged_combinations = []) (monsters : List Monster)
    (acc : List (ℤ × ActionKind × ℤ × ℤ))
    (hacc : ∀ a ∈ acc, a.2.1 ≠ ActionKind.ranged) (m : Monster) :
    ∀ a ∈ gaa_step agent monsters acc m, a.2.1 ≠ ActionKind.ranged := by
  intro a ha
  unfold gaa_step at ha
  rw [ranged_priority_none_of_empty agent h m.y m.x m.mon] at ha
  by_cases hc : adjacent (m.y, m.x) (agent.blstats.y, agent.blstats.x)
  · rw [if_pos hc] at ha
    rcases List.mem_append.1 ha with ha | ha
    · exact hacc a ha
    · rw [List.mem_singleton.1 ha]
      intro hne
      cases hne
  · rw [if_neg hc] at ha
    exact hacc a ha

/-- With no ranged combinations, `get_available_actions` emits no ranged
entry for any monster. -/
lemma actions_no_ranged_of_empty (agent : Agent)
    (h : agent.ranged_combinations = []) (monsters : List Monster) :
    ∀ a ∈ get_available_actions agent monsters, a.2.1 ≠ ActionKind.ranged := by
  unfold get_available_actions
  have hgen : ∀ (ms : List Monster) (acc : List (ℤ × ActionKind × ℤ × ℤ)),
      (∀ a ∈ acc, a.2.1 ≠ ActionKind.ranged) →
      ∀ a ∈ ms.foldl (gaa_step agent monsters) acc,
        a.2.1 ≠ ActionKind.ranged := by
    intro ms
    induction ms with
    | nil => intro acc hacc a ha; exact hacc a ha
    | cons m t ih =>
      intro acc hacc
      rw [List.foldl_cons]
      exact ih _ (gaa_step_no_ranged agent h monsters acc hacc m)
  exact hgen monsters [] (by simp)

/-- C4: if the agent has no ranged loadout, `ranged_monster_priority`
returns `None` ("not applicable") for every monster, and consequently the
engagement action list contains no ranged entry for any monster. -/
theorem claim_C4_no_loadout (agent : Agent)
    (h : agent.ranged_combinations = []) :
    (∀ (y x : ℤ) (mon : MonInfo),
      ranged_monster_priority agent y x mon = none) ∧
    ∀ (monsters : List Monster) (a : ℤ × ActionKind × ℤ × ℤ),
      a ∈ get_available_actions agent monsters → a.2.1 ≠ ActionKind.ranged :=
  ⟨fun y x mon => ranged_priority_none_of_empty agent h y x mon,
   fun monsters a ha => actions_no_ranged_of_empty agent h monsters a ha⟩

/-- C4 witness: a hostile entity aligned on the agent's row at distance 4
with no ranged loadout. -/
def c4agent : Agent :=
  { blstats := ⟨5, 5, 14, 14⟩
    items := []
    ranged_combinations := []
    monsters := [⟨5, 9, ⟨"giant rat"⟩⟩]
    shape0 := 21
    shape1 := 79
    walkable := fun _ _ => true
    glyphs := fun _ _ => 0
    pets := fun _ => false }

theorem claim_C4_no_loadout_witness :
    c4agent.ranged_combinations = [] ∧
    ((∀ (y x : ℤ) (mon : MonInfo),
        ranged_monster_priority c4agent y x mon = none) ∧
      ∀ (monsters : List Monster) (a : ℤ × ActionKind × ℤ × ℤ),
        a ∈ get_available_actions c4agent monsters →
          a.2.1 ≠ ActionKind.ranged) :=
  ⟨rfl, claim_C4_no_loadout c4agent rfl⟩

/-- The obstacle scan only ever lowers the running priority. -/
lemma line_of_fire_scan_le (agent : Agent) (y x dy dx : ℤ) :
    ∀ (f : ℕ) (y1 x1 ret : ℤ),
      line_of_fire_scan agent y x dy dx f y1 x1 ret ≤ ret := by
  intro f
  induction f with
  | zero => intro y1 x1 ret; exact le_refl ret
  | succ f ih =>
    intro y1 x1 ret
    simp only [line_of_fire_scan]
    split
    · refine le_trans (ih _ _ _) ?_
      split <;> omega
    · exact le_refl ret

/-- A cell at offset `k` strictly closer than the Chebyshev distance along
the sign direction is never the target cell. -/
lemma offset_ne_target (ay ax y x : ℤ) (k : ℕ)
    (hk : k < max (y - ay).natAbs (x - ax).natAbs) :
    ¬(ay + (y - ay).sign * k = y ∧ ax + (x - ax).sign * k = x) := by
  rintro ⟨h1, h2⟩
  rcases lt_trichotomy (y - ay) 0 with hy | hy | hy <;>
    rcases lt_trichotomy (x - ax) 0 with hx | hx | hx <;>
    · first
      | rw [Int.sign_eq_neg_one_iff_neg.2 hy] at h1
      | rw [Int.sign_eq_one_iff_pos.2 hy] at h1
      | rw [hy, Int.sign_zero] at h1
      first
      | rw [Int.sign_eq_neg_one_iff_neg.2 hx] at h2
      | rw [Int.sign_eq_one_iff_pos.2 hx] at h2
      | rw [hx, Int.sign_zero] at h2
      omega

/-- Once some strictly-between cell of the line of fire holds a pet glyph
or is non-walkable, the scan ends at least 100 below its input. -/
lemma scan_hit (agent : Agent) (y x dy dx ay ax : ℤ) (n : ℕ)
    (hmiss : ∀ k : ℕ, k < n → ¬(ay + dy * k = y ∧ ax + dx * k = x))
    (i : ℕ) (hi : i < n)
    (hbad : agent.pets (agent.glyphs (ay + dy * i) (ax + dx * i)) = true ∨
      agent.walkable (ay + dy * i) (ax + dx * i) = false) :
    ∀ (f k : ℕ), k + f = n + 1 → 1 ≤ k → k ≤ i → ∀ ret : ℤ,
      line_of_fire_scan agent y x dy dx f (ay + dy * k) (ax + dx * k) ret
        ≤ ret - 100 := by
  intro f
  induction f with
  | zero =>
    intro k hkf _ hki ret
    exfalso
    omega
  | succ f ih =>
    intro k hkf hk1 hki ret
    simp only [line_of_fire_scan]
    have hcond : ay + dy * (k : ℤ) ≠ y ∨ ax + dx * (k : ℤ) ≠ x := by
      rcases not_and_or.1 (hmiss k (by omega)) with hne | hne
      · exact Or.inl hne
      · exact Or.inr hne
    rw [if_pos hcond]
    have hstepy : ay + dy * (k : ℤ) + dy = ay + dy * ((k + 1 : ℕ) : ℤ) := by
      push_cast
      ring
    have hstepx : ax + dx * (k : ℤ) + dx = ax + dx * ((k + 1 : ℕ) : ℤ) := by
      push_cast
      ring
    rw [hstepy, hstepx]
    by_cases hik : k = i
    · subst hik
      have hbad' : agent.pets (agent.glyphs (ay + dy * k) (ax + dx * k)) ∨
          ¬ agent.walkable (ay + dy * k) (ax + dx * k) := by
        rcases hbad with hb | hb
        · exact Or.inl hb
        · exact Or.inr (by rw [hb]; exact Bool.false_ne_true)
      rw [if_pos hbad']
      exact line_of_fire_scan_le agent y x dy dx f _ _ _
    · refine le_trans (ih (k + 1) (by omega) (by omega) (by omega) _) ?_
      split <;> omega

/-- C5: for a monster aligned with the agent (rank, file or diagonal), if
some cell strictly between agent and monster on the line of fire holds a
pet glyph or is non-walkable, `ranged_monster_priority` is either `None` or
strictly negative — never positive. -/
theorem claim_C5_blocked_line (agent : Agent) (y x : ℤ) (mon : MonInfo)
    (hal : agent.blstats.y = y ∨ agent.blstats.x = x ∨
      (agent.blstats.y - y).natAbs = (agent.blstats.x - x).natAbs)
    (i : ℕ) (hi1 : 1 ≤ i)
    (hin : i < max (y - agent.blstats.y).natAbs (x - agent.blstats.x).natAbs)
    (hbad : agent.pets (agent.glyphs
        (agent.blstats.y + (y - agent.blstats.y).sign * i)
        (agent.blstats.x + (x - agent.blstats.x).sign * i)) = true ∨
      agent.walkable (agent.blstats.y + (y - agent.blstats.y).sign * i)
        (agent.blstats.x + (x - agent.blstats.x).sign * i) = false) :
    ranged_monster_priority agent y x mon = none ∨
      ∃ r : ℤ, ranged_monster_priority agent y x mon = some r ∧ r < 0 := by
  unfold ranged_monster_priority
  rw [if_neg (not_not_intro hal)]
  rcases hcomb : agent.ranged_combinations with _ | ⟨⟨launcher, ammo⟩, rest⟩
  · left
    rfl
  · right
    refine ⟨_, rfl, ?_⟩
    have hscan := scan_hit agent y x (y - agent.blstats.y).sign
      (x - agent.blstats.x).sign agent.blstats.y agent.blstats.x
      (max (y - agent.blstats.y).natAbs (x - agent.blstats.x).natAbs)
      (fun k hk => offset_ne_target agent.blstats.y agent.blstats.x y x k hk)
      i hin hbad
      (max (y - agent.blstats.y).natAbs (x - agent.blstats.x).natAbs) 1
      (by omega) le_rfl hi1
    have h1y : agent.blstats.y + (y - agent.blstats.y).sign
        = agent.blstats.y + (y - agent.blstats.y).sign * ((1 : ℕ) : ℤ) := by
      push_cast
      ring
    have h1x : agent.blstats.x + (x - agent.blstats.x).sign
        = agent.blstats.x + (x - agent.blstats.x).sign * ((1 : ℕ) : ℤ) := by
      push_cast
      ring
    have key : ∀ b : ℤ, b ≤ 0 →
        line_of_fire_scan agent y x (y - agent.blstats.y).sign
          (x - agent.blstats.x).sign
          (max (y - agent.blstats.y).natAbs (x - agent.blstats.x).natAbs)
          (agent.blstats.y + (y - agent.blstats.y).sign)
          (agent.blstats.x + (x - agent.blstats.x).sign) b + 11 < 0 := by
      intro b hb
      rw [h1y, h1x]
      have hs := hscan b
      linarith
    apply key
    rcases launcher with _ | l <;> dsimp only <;> split_ifs <;> omega

/-- C5 witness: monster on the agent's row at distance 4 with a wall at
`(5, 7)`, strictly between agent `(5, 5)` and monster `(5, 9)`. -/
def c5agent : Agent :=
  { blstats := ⟨5, 5, 14, 14⟩
    items := []
    ranged_combinations := [(none, ⟨false, true, false⟩)]
    monsters := [⟨5, 9, ⟨"giant rat"⟩⟩]
    shape0 := 21
    shape1 := 79
    walkable := fun y1 x1 => !(y1 == 5 && x1 == 7)
    glyphs := fun _ _ => 0
    pets := fun _ => false }

theorem claim_C5_blocked_line_witness :
    (c5agent.blstats.y = 5 ∨ c5agent.blstats.x = 9 ∨
      (c5agent.blstats.y - 5).natAbs = (c5agent.blstats.x - 9).natAbs) ∧
    (1 : ℕ) ≤ 2 ∧
    2 < max ((5 : ℤ) - c5agent.blstats.y).natAbs
        ((9 : ℤ) - c5agent.blstats.x).natAbs ∧
    (c5agent.pets (c5agent.glyphs
        (c5agent.blstats.y + ((5 : ℤ) - c5agent.blstats.y).sign * (2 : ℕ))
        (c5agent.blstats.x + ((9 : ℤ) - c5agent.blstats.x).sign * (2 : ℕ)))
        = true ∨
      c5agent.walkable
        (c5agent.blstats.y + ((5 : ℤ) - c5agent.blstats.y).sign * (2 : ℕ))
        (c5agent.blstats.x + ((9 : ℤ) - c5agent.blstats.x).sign * (2 : ℕ))
        = false) ∧
    (ranged_monster_priority c5agent 5 9 ⟨"giant rat"⟩ = none ∨
      ∃ r : ℤ, ranged_monster_priority c5agent 5 9 ⟨"giant rat"⟩ = some r ∧
        r < 0) :=
  ⟨by decide, by decide, by decide, by decide,
    claim_C5_blocked_line c5agent 5 9 ⟨"giant rat"⟩ (by decide) 2 (by decide)
      (by decide) (by decide)⟩

/-- C7 counterexample input: agent at `(5, 5)` with 6 hp, wielding an
equipped launcher, with one ranged combination; a weak monster at `(5, 6)`. -/
def c7agent : Agent :=
  { blstats := ⟨5, 5, 6, 20⟩
    items := [⟨true, true, true⟩]
    ranged_combinations := [(some ⟨true, true, true⟩, ⟨false, true, false⟩)]
    monsters := [⟨5, 6, ⟨"lichen"⟩⟩]
    shape0 := 21
    shape1 := 79
    walkable := fun _ _ => true
    glyphs := fun _ _ => 0
    pets := fun _ => false }

/-- C7 counterexample: with the agent at `(5, 5)` and a weak monster at
`(5, 6)`, the melee priority is negative (hp ≤ 8 and a wielded launcher)
and the ranged priority is `some 0` — not "not applicable" — so the action
list does contain a ranged entry and its priority beats melee: the claim
fails as stated. -/
theorem claim_C7_counterexample :
    melee_monster_priority c7agent [⟨5, 6, ⟨"lichen"⟩⟩] ⟨5, 6, ⟨"lichen"⟩⟩
        = -5 ∧
    ranged_monster_priority c7agent 5 6 ⟨"lichen"⟩ = some 0 ∧
    get_available_actions c7agent [⟨5, 6, ⟨"lichen"⟩⟩]
      = [(-5, ActionKind.melee, 5, 6), (0, ActionKind.ranged, 5, 6)] :=
  ⟨by decide, by decide, by decide⟩

/-- C7 amended: with the agent at `(5, 5)`, a single weak monster at
`(5, 6)`, no ranged combinations, and the agent healthy (hp > 8) or without
a wielded ranged weapon, the available actions are exactly one melee attack
toward `(5, 6)` with positive priority (and the ranged priority is not
applicable, via the loadout check). -/
theorem claim_C7_amended (agent : Agent) (mname : String)
    (hy : agent.blstats.y = 5) (hx : agent.blstats.x = 5)
    (hweak : mname ∈ WEAK_MONSTERS)
    (hrc : agent.ranged_combinations = [])
    (hcond : 8 < agent.blstats.hitpoints ∨
      wielding_ranged_weapon agent = false) :
    ∃ pr : ℤ,
      get_available_actions agent [⟨5, 6, ⟨mname⟩⟩]
          = [(pr, ActionKind.melee, 5, 6)] ∧ 0 < pr := by
  have hname : mname = "lichen" ∨ mname = "newt" := by
    simpa [WEAK_MONSTERS] using hweak
  have hfast : is_monster_faster agent ⟨5, 6, ⟨mname⟩⟩ = false := by
    rcases hname with rfl | rfl <;> rfl
  have honly : mname ∉ ONLY_RANGED_SLOW_MONSTERS := by
    rcases hname with rfl | rfl <;> decide
  have hmp : 0 < melee_monster_priority agent [⟨5, 6, ⟨mname⟩⟩]
      ⟨5, 6, ⟨mname⟩⟩ := by
    unfold melee_monster_priority
    dsimp only
    rw [hfast]
    rw [if_neg (by simp [COLD_MONSTERS] :
      ¬ mname ∈ COLD_MONSTERS), if_neg honly]
    rcases hcond with hhp | hwf
    · rw [if_pos (Or.inl hhp)]
      split_ifs <;> omega
    · rw [hwf]
      simp only [Bool.false_eq_true, false_and, if_false]
      split_ifs <;> omega
  refine ⟨melee_monster_priority agent [⟨5, 6, ⟨mname⟩⟩] ⟨5, 6, ⟨mname⟩⟩,
    ?_, hmp⟩
  unfold get_available_actions
  rw [List.foldl_cons, List.foldl_nil]
  unfold gaa_step
  rw [ranged_priority_none_of_empty agent hrc]
  dsimp only
  rw [hy, hx]
  rw [if_pos (by decide : adjacent (((5 : ℤ), (6 : ℤ)))
    (((5 : ℤ), (5 : ℤ))) = true)]
  rw [List.nil_append]

def c7goodagent : Agent :=
  { blstats := ⟨5, 5, 14, 14⟩
    items := []
    ranged_combinations := []
    monsters := [⟨5, 6, ⟨"lichen"⟩⟩]
    shape0 := 21
    shape1 := 79
    walkable := fun _ _ => true
    glyphs := fun _ _ => 0
    pets := fun _ => false }

theorem claim_C7_amended_witness :
    c7goodagent.blstats.y = 5 ∧ c7goodagent.blstats.x = 5 ∧
    "lichen" ∈ WEAK_MONSTERS ∧ c7goodagent.ranged_combinations = [] ∧
    (8 < c7goodagent.blstats.hitpoints ∨
      wielding_ranged_weapon c7goodagent = false) ∧
    ∃ pr : ℤ,
      get_available_actions c7goodagent [⟨5, 6, ⟨"lichen"⟩⟩]
          = [(pr, ActionKind.melee, 5, 6)] ∧ 0 < pr :=
  ⟨rfl, rfl, by decide, rfl, by decide,
    claim_C7_amended c7goodagent "lichen" rfl rfl (by decide) rfl
      (by decide)⟩

/-- Generic membership-aware `isSome` preservation through a fold. -/
lemma foldl_isSome_mem {α : Type} (f : ScoreField → α → ScoreField)
    (ty tx : ℤ) :
    ∀ (l : List α),
      (∀ a ∈ l, ∀ p : ScoreField,
        ((f p a).val ty tx).isSome = (p.val ty tx).isSome) →
      ∀ p : ScoreField,
        ((l.foldl f p).val ty tx).isSome = (p.val ty tx).isSome := by
  intro l
  induction l with
  | nil => intro _ p; rfl
  | cons a t ih =>
    intro h p
    rw [List.foldl_cons, ih (fun b hb => h b (List.mem_cons_of_mem _ hb)),
      h a (List.mem_cons_self _ _)]

/-- The positive pass keeps finiteness at any cell other than the monster's
own (which it sets to `NaN`). -/
lemma draw_monster_priority_positive_isSome (agent : Agent) (m : Monster)
    (p : ScoreField) (w : ℤ → ℤ → Bool) (ty tx : ℤ)
    (hne : ¬(ty = m.y ∧ tx = m.x)) :
    ((draw_monster_priority_positive agent m p w).val ty tx).isSome
      = (p.val ty tx).isSome := by
  have hset : ((p.set m.y m.x none).val ty tx).isSome
      = (p.val ty tx).isSome := by
    unfold ScoreField.set
    simp only
    rw [if_neg hne]
  unfold draw_monster_priority_positive
  dsimp only
  split_ifs <;>
    simp only [draw_around_isSome, draw_ranged_isSome, hset]

/-- The negative pass keeps finiteness everywhere. -/
lemma draw_monster_priority_negative_isSome (agent : Agent) (m : Monster)
    (p : ScoreField) (w : ℤ → ℤ → Bool) (ty tx : ℤ) :
    ((draw_monster_priority_negative agent m p w).val ty tx).isSome
      = (p.val ty tx).isSome := by
  unfold draw_monster_priority_negative
  dsimp only
  split_ifs <;>
    simp only [draw_around_isSome, draw_ranged_isSome]

/-- C1: when the agent's own cell is in-bounds, walkable, and not occupied
by a visible monster, `build_priority_map` yields exactly 0 there (the
re-basing subtracts the agent's finite cell value from itself). -/
theorem claim_C1_rebase_zero (agent : Agent)
    (hb : 0 ≤ agent.blstats.y ∧ agent.blstats.y < agent.shape0 ∧
      0 ≤ agent.blstats.x ∧ agent.blstats.x < agent.shape1)
    (hw : agent.walkable agent.blstats.y agent.blstats.x = true)
    (hm : ∀ m ∈ agent.monsters,
      ¬(agent.blstats.y = m.y ∧ agent.blstats.x = m.x)) :
    (build_priority_map agent).1.val agent.blstats.y agent.blstats.x
      = some 0 := by
  unfold build_priority_map
  dsimp only
  have h2 : ((agent.monsters.foldl
      (fun p m => draw_monster_priority_negative agent m p agent.walkable)
      (agent.monsters.foldl
        (fun p m => draw_monster_priority_positive agent m p agent.walkable)
        ⟨agent.shape0, agent.shape1, fun _ _ => some 0⟩)).val
      agent.blstats.y agent.blstats.x).isSome = true := by
    rw [foldl_isSome_mem _ _ _ _
        (fun m _ p => draw_monster_priority_negative_isSome agent m p
          agent.walkable _ _),
      foldl_isSome_mem _ _ _ _
        (fun m hm2 p => draw_monster_priority_positive_isSome agent m p
          agent.walkable _ _ (hm m hm2))]
    rfl
  obtain ⟨q, hq⟩ := Option.isSome_iff_exists.1 h2
  rw [if_neg (fun hc => hc.2 hw), hq]
  simp [scoreSub]

def c1agent : Agent :=
  { blstats := ⟨5, 5, 14, 14⟩
    items := []
    ranged_combinations := []
    monsters := [⟨5, 9, ⟨"giant rat"⟩⟩, ⟨7, 5, ⟨"newt"⟩⟩]
    shape0 := 21
    shape1 := 79
    walkable := fun _ _ => true
    glyphs := fun _ _ => 0
    pets := fun _ => false }

theorem claim_C1_rebase_zero_witness :
    (0 ≤ c1agent.blstats.y ∧ c1agent.blstats.y < c1agent.shape0 ∧
      0 ≤ c1agent.blstats.x ∧ c1agent.blstats.x < c1agent.shape1) ∧
    c1agent.walkable c1agent.blstats.y c1agent.blstats.x = true ∧
    (∀ m ∈ c1agent.monsters,
      ¬(c1agent.blstats.y = m.y ∧ c1agent.blstats.x = m.x)) ∧
    (build_priority_map c1agent).1.val c1agent.blstats.y c1agent.blstats.x
      = some 0 :=
  ⟨by decide, rfl, by decide,
    claim_C1_rebase_zero c1agent (by decide) rfl (by decide)⟩

end FightHeur

namespace ItemMod

/-!
Embedding of the inventory layer (`item.py`): the item-identity invariant
of the `Item` class and the `panic_if_items_below_me_change` guard scope.
-/

/-- The `AgentPanic` exception, carrying its message. -/
structure AgentPanic where
  msg : String
deriving DecidableEq, Repr

/-- An object kind (an entry of the external `objects.py` table); only the
name matters here. -/
structure ObjKind where
  name : String
deriving DecidableEq, Repr

/-- The fields `Item.__init__` stores.  `status` is one of
`UNKNOWN = 0 / CURSED = 1 / UNCURSED = 2 / BLESSED = 3`.  The derived
`category` consults the external `nh.objclass` table and is not modelled. -/
structure Item where
  objs : List ObjKind
  glyph : Option ℤ
  count : ℤ
  status : ℕ
  modifier : Option ℤ
  equipped : Bool
  at_ready : Bool
  text : Option String
deriving DecidableEq, Repr

/-- `Item.__init__`: `assert isinstance(objs, list) and len(objs) >= 1`;
`none` models the raised `AssertionError`.  The remaining asserts consult
the external `nh` tables and are not modelled. -/
def Item.init (objs : List ObjKind) (glyph : Option ℤ) (count : ℤ)
    (status : ℕ) (modifier : Option ℤ) (equipped at_ready : Bool)
    (text : Option String) : Option Item :=
  if 1 ≤ objs.length then
    some ⟨objs, glyph, count, status, modifier, equipped, at_ready, text⟩
  else none

/-- `Item.is_ambiguous`: the source line is
`return len(self.objs) == 1, self.objs` — the comma makes the return value
the PAIR `(len(objs) == 1, objs)`, not a boolean. -/
def Item.is_ambiguous (it : Item) : Bool × List ObjKind :=
  (it.objs.length == 1, it.objs)

/-- Python truthiness of a tuple value: a 2-tuple is a nonempty tuple and
is therefore truthy regardless of its contents. -/
def pyTruthyPair {α β : Type} (t : α × β) : Bool := true

/-- `Item.object`: `assert self.is_ambiguous()` followed by
`return self.objs[0]`; `none` models a raised error (a failed assert or an
out-of-range index). -/
def Item.object (it : Item) : Option ObjKind :=
  if pyTruthyPair it.is_ambiguous then it.objs.head? else none

/-- C9 failing input: an item constructed with two identity candidates. -/
def ambiguousItem : Option Item :=
  Item.init [⟨"dagger"⟩, ⟨"elven dagger"⟩] none 1 0 none false false none

/-- C9: construction on an empty candidate list does fail (first half of
the claim holds), but on the failing input — an item with TWO candidates —
construction succeeds, the tuple returned by `is_ambiguous` is truthy, so
the `assert` in `object()` passes vacuously and `object()` returns the
first candidate instead of failing: the code contradicts the claimed
invariant. -/
theorem claim_C9_object_ambiguity_bug :
    Item.init [] none 1 0 none false false none = none ∧
    ambiguousItem
      = some ⟨[⟨"dagger"⟩, ⟨"elven dagger"⟩], none, 1, 0, none,
          false, false, none⟩ ∧
    (∀ it : Item, pyTruthyPair it.is_ambiguous = true) ∧
    Item.object ⟨[⟨"dagger"⟩, ⟨"elven dagger"⟩], none, 1, 0, none,
        false, false, none⟩
      = some ⟨"dagger"⟩ :=
  ⟨rfl, rfl, fun _ => rfl, rfl⟩

/-- The slice of an `Item` the items-below-me guard reads: its raw text. -/
structure ItemB where
  text : Option String
deriving DecidableEq, Repr

/-- The items-below-me slice of `Inventory` (`letters_below_me` entries may
be `None`). -/
structure InvBelow where
  items_below_me : List ItemB
  letters_below_me : List (Option Char)
deriving DecidableEq, Repr

/-- The fingerprint `[(l, i.text) for i, l in zip(items, letters)]`. -/
def belowFingerprint (items : List ItemB) (letters : List (Option Char)) :
    List (Option Char × Option String) :=
  (items.zip letters).map (fun p => (p.2, p.1.text))

/-- A check registered on `agent.on_update`.  The only variant this module
registers is the closure of `panic_if_items_below_me_change`, identified by
the lists it captured at scope entry.  (Python compares registered closures
by object identity; a fresh closure equals only itself, which the
freshness hypothesis of the scope theorem mirrors.) -/
inductive UpdateCheck where
  | items_below_guard (old_items : List ItemB)
      (old_letters : List (Option Char))
deriving DecidableEq, Repr

/-- The closure body `f`: raise `AgentPanic('items below me changed')`
exactly when the current fingerprint differs from the captured one. -/
def runUpdateCheck : UpdateCheck → InvBelow → Option AgentPanic
  | .items_below_guard old_i old_l, inv =>
    if belowFingerprint old_i old_l
        ≠ belowFingerprint inv.items_below_me inv.letters_below_me then
      some ⟨"items below me changed"⟩
    else none

/-- The agent slice the guard scope mutates: the inventory state and the
registered update checks. -/
structure AgentG where
  inv : InvBelow
  on_update : List UpdateCheck
deriving DecidableEq, Repr

/-- `on_update.pop(on_update.index(fun))`: remove the first occurrence. -/
def removeFirst : List UpdateCheck → UpdateCheck → List UpdateCheck
  | [], _ => []
  | h :: t, g => if h = g then t else h :: removeFirst t g

/-- `panic_if_items_below_me_change` as a scope transformer: capture the
below-me lists, append the check to `agent.on_update`, run the body (whose
second component is the panic it ended with, if any), and in the `finally`
block — on the normal and the exceptional path alike — remove the check. -/
def panic_if_items_below_me_change (ag : AgentG)
    (body : AgentG → AgentG × Option AgentPanic) :
    AgentG × Option AgentPanic :=
  let g := UpdateCheck.items_below_guard ag.inv.items_below_me
    ag.inv.letters_below_me
  let entered : AgentG := { ag with on_update := ag.on_update ++ [g] }
  let res := body entered
  ({ res.1 with on_update := removeFirst res.1.on_update g }, res.2)

lemma removeFirst_append_not_mem (g : UpdateCheck) :
    ∀ (l : List UpdateCheck), g ∉ l → removeFirst (l ++ [g]) g = l := by
  intro l
  induction l with
  | nil => intro _; simp [removeFirst]
  | cons h t ih =>
    intro hg
    rw [List.cons_append]
    unfold removeFirst
    rw [if_neg (fun he => hg (by rw [← he]; exact List.mem_cons_self _ _)),
      ih (fun ht => hg (List.mem_cons_of_mem _ ht))]

/-- C8: within a `panic_if_items_below_me_change` scope, (a) the registered
check raises `AgentPanic('items below me changed')` exactly when the
`(letter, item text)` fingerprint differs from its value at scope entry,
and (b) the check is removed from `on_update` when the scope exits —
whether the body finished normally or ended in a panic, which also
propagates unchanged. -/
theorem claim_C8_guard_scope (ag : AgentG)
    (body : AgentG → AgentG × Option AgentPanic)
    (hfresh : UpdateCheck.items_below_guard ag.inv.items_below_me
      ag.inv.letters_below_me ∉ ag.on_update)
    (hbody : (body { ag with on_update := ag.on_update ++
        [UpdateCheck.items_below_guard ag.inv.items_below_me
          ag.inv.letters_below_me] }).1.on_update
      = ag.on_update ++ [UpdateCheck.items_below_guard ag.inv.items_below_me
          ag.inv.letters_below_me]) :
    (∀ inv : InvBelow,
      runUpdateCheck (UpdateCheck.items_below_guard ag.inv.items_below_me
          ag.inv.letters_below_me) inv
        = if belowFingerprint inv.items_below_me inv.letters_below_me
            ≠ belowFingerprint ag.inv.items_below_me ag.inv.letters_below_me
          then some ⟨"items below me changed"⟩ else none) ∧
    (panic_if_items_below_me_change ag body).1.on_update = ag.on_update ∧
    (panic_if_items_below_me_change ag body).2
      = (body { ag with on_update := ag.on_update ++
          [UpdateCheck.items_below_guard ag.inv.items_below_me
            ag.inv.letters_below_me] }).2 := by
  refine ⟨?_, ?_, rfl⟩
  · intro inv
    show (if belowFingerprint ag.inv.items_below_me ag.inv.letters_below_me
        ≠ belowFingerprint inv.items_below_me inv.letters_below_me then
        some (⟨"items below me changed"⟩ : AgentPanic) else none) = _
    by_cases hne : belowFingerprint inv.items_below_me inv.letters_below_me
        = belowFingerprint ag.inv.items_below_me ag.inv.letters_below_me
    · rw [if_neg (not_not_intro hne.symm), if_neg (not_not_intro hne)]
    · rw [if_pos (fun he => hne he.symm), if_pos hne]
  · unfold panic_if_items_below_me_change
    dsimp only
    rw [hbody]
    exact removeFirst_append_not_mem _ _ hfresh

/-- C8 witness: a body that mutates the items below the agent and ends in
the panic the guard would raise (the exceptional exit path). -/
def c8agent : AgentG :=
  { inv := { items_below_me := [⟨some "a dagger"⟩],
             letters_below_me := [some 'a'] }
    on_update := [] }

def c8body (a : AgentG) : AgentG × Option AgentPanic :=
  ({ a with inv := { a.inv with items_below_me := [] } },
    some ⟨"items below me changed"⟩)

theorem claim_C8_guard_scope_witness :
    (UpdateCheck.items_below_guard c8agent.inv.items_below_me
        c8agent.inv.letters_below_me ∉ c8agent.on_update) ∧
    ((c8body { c8agent with on_update := c8agent.on_update ++
        [UpdateCheck.items_below_guard c8agent.inv.items_below_me
          c8agent.inv.letters_below_me] }).1.on_update
      = c8agent.on_update ++ [UpdateCheck.items_below_guard
          c8agent.inv.items_below_me c8agent.inv.letters_below_me]) ∧
    ((∀ inv : InvBelow,
      runUpdateCheck (UpdateCheck.items_below_guard c8agent.inv.items_below_me
          c8agent.inv.letters_below_me) inv
        = if belowFingerprint inv.items_below_me inv.letters_below_me
            ≠ belowFingerprint c8agent.inv.items_below_me
                c8agent.inv.letters_below_me
          then some ⟨"items below me changed"⟩ else none) ∧
      (panic_if_items_below_me_change c8agent c8body).1.on_update
        = c8agent.on_update ∧
      (panic_if_items_below_me_change c8agent c8body).2
        = (c8body { c8agent with on_update := c8agent.on_update ++
            [UpdateCheck.items_below_guard c8agent.inv.items_below_me
              c8agent.inv.letters_below_me] }).2) :=
  ⟨by decide, rfl, claim_C8_guard_scope c8agent c8body (by decide) rfl⟩

end ItemMod
